import Mathlib

/-!
Verification of the Hateno simulation orchestrator against its source.

Strings of the Python code are modelled as `List Char`; Python values that
settings may hold (the code passes them through `str()` when embedded in a
larger string) are modelled by `Value` with the textual and integral cases.
The code under scrutiny:
  * `Simulation.parseString`, `Simulation.generateSettings`,
    `Simulation.generateGlobalSettings`, `Simulation.reduced_settings`
    (manager/simulation.py);
  * `Maker.run`, `Maker.parseScriptToLaunch`, `Maker.waitForJobs`
    (src/hateno/maker.py and manager/maker.py).
External collaborators (Manager, Generator, RemoteFolder, the jobs state
source) are oracles: functions from the round or poll number to their answer.
-/

/-- The opening brace character, written by code so that no brace appears in
a string literal. -/
def obr : Char := Char.ofNat 123

/-- The closing brace character. -/
def cbr : Char := Char.ofNat 125

/-- A raw setting value: the Python code distinguishes `str` values (parsed
for tags) from every other type (returned unchanged); `int` stands for the
non-textual types. -/
inductive Value where
  | str (s : List Char)
  | int (n : Int)
deriving DecidableEq

/-- Python `str()` of a value, as the tag-substitution loop applies it. -/
def Value.toText : Value → List Char
  | .str s => s
  | .int n => String.toList (toString n)

/-- The tag category captured by the regex group `(?:global)?setting`. -/
inductive Cat where
  | setting
  | globalsetting
deriving DecidableEq

/-- The characters of the literal `setting:`. -/
def settingChars : List Char := ['s', 'e', 't', 't', 'i', 'n', 'g', ':']

/-- The characters of the literal `global`. -/
def globalChars : List Char := ['g', 'l', 'o', 'b', 'a', 'l']

/-- The opening of a tag of the given category: an opening brace, the
category name, a colon. -/
def catPre : Cat → List Char
  | .setting => obr :: settingChars
  | .globalsetting => obr :: (globalChars ++ settingChars)

/-- The full text of a tag: `catPre`, the name, a closing brace. Also the
text `match.group(0)` restores verbatim for an unresolved tag. -/
def mkTag (cat : Cat) (nm : List Char) : List Char :=
  catPre cat ++ nm ++ [cbr]

/-- Drop a literal from the front of a list of characters; `none` when the
list does not start with it. -/
def dropLit : List Char → List Char → Option (List Char)
  | [], l => some l
  | _ :: _, [] => none
  | p :: ps, c :: cs => if c = p then dropLit ps cs else none

/-- After the `catPre` of a tag matched, read the name — the regex takes
`[^}]+` greedily, i.e. everything up to the first closing brace, nonempty —
then the closing brace. Returns the category, the name and the rest of the
string after the tag. -/
def matchNameEnd (cat : Cat) (rest : List Char) :
    Option (Cat × List Char × List Char) :=
  match rest.dropWhile (fun c => c ≠ cbr) with
  | _ :: rest2 =>
    if rest.takeWhile (fun c => c ≠ cbr) = [] then none
    else some (cat, rest.takeWhile (fun c => c ≠ cbr), rest2)
  | [] => none

/-- A match of the tag regex `\{(?:global)?setting:[^}]+\}` anchored at the
start of the string. -/
def matchTagAt (l : List Char) : Option (Cat × List Char × List Char) :=
  match dropLit (catPre .globalsetting) l with
  | some rest => matchNameEnd .globalsetting rest
  | none =>
    match dropLit (catPre .setting) l with
    | some rest => matchNameEnd .setting rest
    | none => none

/-- The two lookup mappings `parseString` builds: the simulation's reduced
settings and reduced global settings, as association lists (Python dicts). -/
structure ParseEnv where
  settings : List (List Char × Value)
  globalsettings : List (List Char × Value)
deriving DecidableEq

/-- Python dict access `d[key]` on an association list: first matching key. -/
def assocLookup (key : List Char) : List (List Char × Value) → Option Value
  | [] => none
  | (k, v) :: rest => if k = key then some v else assocLookup key rest

/-- `settings[category][name]` of `parseString`. -/
def lookupCat (env : ParseEnv) : Cat → List Char → Option Value
  | .setting, nm => assocLookup nm env.settings
  | .globalsetting, nm => assocLookup nm env.globalsettings

/-- `self._setting_tag_regex.fullmatch(s)`: the whole string is one tag. -/
def fullTagOf (s : List Char) : Option (Cat × List Char) :=
  match matchTagAt s with
  | some (cat, nm, []) => some (cat, nm)
  | _ => none

/-- One left-to-right pass of `re.finditer` substitution, with a step bound
(structural recursion so that terms compute): each tag occurrence is
replaced by the textual form of the referenced value, an unresolved tag is
kept verbatim (`match.group(0)`), literal spans are copied unchanged. Every
step consumes at least one character, so `l.length` steps always suffice. -/
def substOnceN : Nat → ParseEnv → List Char → List Char
  | 0, _, l => l
  | n + 1, env, l =>
    match l with
    | [] => []
    | c :: cs =>
      match matchTagAt (c :: cs) with
      | some (cat, nm, rest) =>
        (match lookupCat env cat nm with
         | some v => v.toText
         | none => mkTag cat nm) ++ substOnceN n env rest
      | none => c :: substOnceN n env cs

/-- One left-to-right pass of `re.finditer` substitution over the string
(`parsed` in the source). -/
def substOnce (env : ParseEnv) (l : List Char) : List Char :=
  substOnceN l.length env l

/-- `Simulation.parseString`, with the instance attribute
`_parser_recursion_stack` passed and returned explicitly and a fuel bound on
the recursion depth (`none` = the Python recursion has not returned within
`fuel` nested calls). A non-`str` value is returned unchanged before the
lookup mappings are touched; a string that is exactly one tag yields a deep
copy of the referenced value (or the input when the name is absent); else one
substitution pass runs, the input is appended to the recursion stack, and the
code recurses on the new string unless it is already on the stack, in which
case the stack is cleared and the new string returned. -/
def parseString : Nat → ParseEnv → List (List Char) → Value →
    Option (Value × List (List Char))
  | 0, _, _, _ => none
  | fuel + 1, env, stack, v =>
    match v with
    | .int n => some (.int n, stack)
    | .str s =>
      match fullTagOf s with
      | some (cat, nm) =>
        match lookupCat env cat nm with
        | some w => some (w, stack)
        | none => some (.str s, stack)
      | none =>
        let parsed := substOnce env s
        let stack2 := stack ++ [s]
        if parsed ∈ stack2 then some (.str parsed, [])
        else parseString fuel env stack2 (.str parsed)

/-- The substitution chain of an input string: the string after `k`
substitution passes. -/
def chainFrom (env : ParseEnv) (s : List Char) : Nat → List Char
  | 0 => s
  | k + 1 => substOnce env (chainFrom env s k)

/-- The first `n` entries of the substitution chain — the recursion stack
`parseString` has accumulated when it processes `chainFrom env s n`. -/
def chainStack (env : ParseEnv) (s : List Char) (n : Nat) : List (List Char) :=
  (List.range n).map (chainFrom env s)

/-! ## Orchestration engine (`Maker.run`)

The external collaborators are oracles indexed by the round number:
`extract k` is the `unknown` list `Maker.extractSimulations` returns in round
`k` (simulations identified by numbers), `waitOk k` the boolean
`Maker.waitForJobs` returns, `dlOk k` the boolean `Maker.downloadSimulations`
returns. -/

/-- The mutable state of one `Maker.run` call: the two counters, the current
`unknown_simulations` list, and the number of completed rounds. -/
structure MakerState where
  corruptions : Int
  failures : Int
  unknown : List Nat
  rounds : Nat
deriving DecidableEq

/-- The `while` condition of `Maker.run`:
`(max_corrupted < 0 or corruptions <= max_corrupted) and
 (max_failures < 0 or failures <= max_failures)`. -/
def loopCond (maxCorrupted maxFailures corruptions failures : Int) : Bool :=
  (decide (maxCorrupted < 0) || decide (corruptions ≤ maxCorrupted)) &&
  (decide (maxFailures < 0) || decide (failures ≤ maxFailures))

/-- The `while` loop of `Maker.run`, with a fuel bound on the number of
iterations (`none` = the loop has not left the body within `fuel`
iterations). Each full round extracts, runs the jobs, increments the
failures counter when `waitForJobs` reported a failure, increments the
corruptions counter when `downloadSimulations` reported a rejection, and
loops; the loop breaks when `unknown` is empty, and stops when the condition
turns false. -/
def runLoop : Nat → Int → Int → (Nat → List Nat) → (Nat → Bool) →
    (Nat → Bool) → MakerState → Option MakerState
  | 0, _, _, _, _, _, _ => none
  | fuel + 1, maxC, maxF, extract, waitOk, dlOk, st =>
    if loopCond maxC maxF st.corruptions st.failures then
      if extract st.rounds = [] then some { st with unknown := extract st.rounds }
      else
        runLoop fuel maxC maxF extract waitOk dlOk
          { corruptions := st.corruptions + (if dlOk st.rounds then 0 else 1),
            failures := st.failures + (if waitOk st.rounds then 0 else 1),
            unknown := extract st.rounds,
            rounds := st.rounds + 1 }
    else some st

/-- `Maker.run`: both counters reset to 0, then the loop; the returned state
carries the `unknown_simulations` list the caller receives. -/
def makerRun (fuel : Nat) (maxC maxF : Int) (extract : Nat → List Nat)
    (waitOk dlOk : Nat → Bool) : Option MakerState :=
  runLoop fuel maxC maxF extract waitOk dlOk ⟨0, 0, [], 0⟩

/-! ## The wait phase (`Maker.waitForJobs`) -/

/-- The four job states of `JobState` in the jobs module. -/
inductive JobState where
  | waiting
  | running
  | succeed
  | failed
deriving DecidableEq

/-- The dictionary `jobs_by_state` built on each poll. -/
structure Partition where
  waiting : List Nat
  running : List Nat
  succeed : List Nat
  failed : List Nat
deriving DecidableEq

/-- The partition of the registered job ids by their state at poll `k`;
`states k j` is the state the job-state source reports for job `j` at poll
`k` (an oracle for the remote file read by `updateFromFile`). -/
def partitionAt (states : Nat → Nat → JobState) (ids : List Nat) (k : Nat) :
    Partition where
  waiting := ids.filter fun j => states k j = JobState.waiting
  running := ids.filter fun j => states k j = JobState.running
  succeed := ids.filter fun j => states k j = JobState.succeed
  failed := ids.filter fun j => states k j = JobState.failed

/-- The `while True` poll loop of `Maker.waitForJobs`: compute the current
partition; when it differs from the previous poll's (`prev`, `none` before
the first poll, since `previous_states` starts as an empty dict) and the
succeeded and failed ids together cover the whole registered set, break with
the current partition; otherwise remember it and poll again. Fuel bounds the
number of polls. -/
def waitLoop (states : Nat → Nat → JobState) (ids : List Nat) :
    Nat → Nat → Option Partition → Option Partition
  | 0, _, _ => none
  | fuel + 1, k, prev =>
    if some (partitionAt states ids k) ≠ prev ∧
        ((partitionAt states ids k).succeed ++
          (partitionAt states ids k).failed).toFinset = ids.toFinset
    then some (partitionAt states ids k)
    else waitLoop states ids fuel (k + 1) (some (partitionAt states ids k))

/-- `Maker.waitForJobs`: run the poll loop from poll 0 with no previous
partition, and return `not(jobs_by_state[failed])` — true exactly when the
final partition's failed list is empty. -/
def waitForJobs (fuel : Nat) (states : Nat → Nat → JobState)
    (ids : List Nat) : Option Bool :=
  (waitLoop states ids fuel 0 none).map fun p => p.failed.isEmpty

/-! ## Settings expansion (`Simulation.generateSettings`) -/

/-- One raw setting as `generateSettings` builds it. -/
structure Setting where
  name : List Char
  value : Value
  exclude : Bool
  pattern : List Char
deriving DecidableEq

/-- One declared member of a settings-set declaration in the folder
configuration: `exclude` and `pattern` may be absent. -/
structure SettingDecl where
  name : List Char
  default : Value
  exclude : Option Bool
  pattern : Option (List Char)
deriving DecidableEq

/-- A settings-set declaration of the folder configuration. -/
structure SettingsSetDecl where
  setName : List Char
  required : Bool
  settings : List SettingDecl
deriving DecidableEq

/-- One user-supplied value-set: the name of the targeted settings set and
the mapping of setting names to values. -/
structure UserValueSet where
  setName : List Char
  settings : List (List Char × Value)
deriving DecidableEq

/-- The `default_settings` list `generateSettings` builds for a declaration:
`exclude` is present-and-true, `pattern` falls back to the folder's
`setting_pattern`. -/
def buildDefault (defaultPattern : List Char) (d : SettingsSetDecl) :
    List Setting :=
  d.settings.map fun s =>
    { name := s.name, value := s.default,
      exclude := s.exclude.getD false,
      pattern := s.pattern.getD defaultPattern }

/-- Overwrite the values of a deep copy of the default instance with the
entries of one user value-set: a `KeyError` (name absent) is ignored. -/
def applyValueSet (vs : List (List Char × Value)) (inst : List Setting) :
    List Setting :=
  inst.map fun st =>
    match assocLookup st.name vs with
    | some v => { st with value := v }
    | none => st

/-- The user value-sets whose `set` field equals a declaration's name, in
their original order. -/
def matchingSets (user : List UserValueSet) (d : SettingsSetDecl) :
    List (List (List Char × Value)) :=
  (user.filter fun u => u.setName = d.setName).map fun u => u.settings

/-- The expansion loop of `Simulation.generateSettings` (the raw settings it
builds before the tag-resolution pass `parseSettings`): one block of
instances per declaration, in declaration order. -/
def generateSettings (defaultPattern : List Char)
    (decls : List SettingsSetDecl) (user : List UserValueSet) :
    List (List Setting) :=
  (decls.map fun d =>
    if matchingSets user d ≠ [] then
      (matchingSets user d).map fun vs =>
        applyValueSet vs (buildDefault defaultPattern d)
    else if d.required then [buildDefault defaultPattern d]
    else []).flatten

/-! ## Reduced settings and the simulation-level parse
    (`Simulation.reduced_settings`, `Simulation.parseString`,
    `Simulation.parseGlobalSettings`) -/

/-- Insert one pair into a Python dict modelled as an association list:
an existing key keeps its position and takes the new value, a new key is
appended. -/
def dictUpsert (d : List (List Char × Value)) (key : List Char) (v : Value) :
    List (List Char × Value) :=
  if d.any fun p => p.1 = key then
    d.map fun p => if p.1 = key then (key, v) else p
  else d ++ [(key, v)]

/-- The dict a Python dict comprehension builds from a sequence of pairs. -/
def dictOfPairs (l : List (List Char × Value)) : List (List Char × Value) :=
  l.foldl (fun d p => dictUpsert d p.1 p.2) []

/-- The `settings` property: one name-to-value dict per instance, the
settings with `exclude` set being dropped. -/
def settingsView (insts : List (List Setting)) :
    List (List (List Char × Value)) :=
  insts.map fun inst =>
    dictOfPairs ((inst.filter fun s => !s.exclude).map fun s => (s.name, s.value))

/-- `Simulation.reduced_settings`:
`functools.reduce(lambda a, b: {**a, **b}, self.settings)` — `none` models
the `TypeError` `reduce` raises on an empty sequence with no initial value.
In the program this function is only ever reached through the `_settings`
property (`settingsProp` below), which never yields an empty instance list:
the property treats an empty stored list as not yet generated and
regenerates instead of returning it, so the empty-sequence `TypeError` is
unreachable there (see the C9 theorems). -/
def reducedSettings (dicts : List (List (List Char × Value))) :
    Option (List (List Char × Value)) :=
  match dicts with
  | [] => none
  | x :: xs => some (xs.foldl (fun a b => dictOfPairs (a ++ b)) x)

/-- The raw global-settings list `generateGlobalSettings` builds before its
tag-resolution pass: per declared global setting, the user's value when
present, else the declared default. -/
def generateGlobalSettingsRaw (decls : List (List Char × Value))
    (user : List (List Char × Value)) : List (List Char × Value) :=
  decls.map fun d => (d.1, (assocLookup d.1 user).getD d.2)

/-- What a simulation carries for the lazy settings machinery: the folder's
default pattern, the settings-set declarations, the user settings document,
and the current reduced global-settings mapping. The global list is taken as
already materialized at the moment a settings parse starts (its own lazy
property is analogous and outside this model); the globals pass below
refreshes `gdict` before each of its parse calls. -/
structure SimSettingsCtx where
  dp : List Char
  decls : List SettingsSetDecl
  user : List UserValueSet
  gdict : List (List Char × Value)
deriving DecidableEq

/-- The inner loop of `parseSettings` over one instance: each setting's
value is overwritten in place with its parsed form, so later parses see the
earlier updates; every `parseString` call builds its settings mapping from
the current full raw list — the finished instances `done`, the current
instance with its parsed prefix `curDone` and unparsed rest, and the
untouched instances `rest` (the list is non-empty here, so the property
returns it directly and `reduce` succeeds; the `none` propagation covers the
general plumbing). The parser's instance-level recursion stack is threaded
through the calls. -/
def parseInstLoop (fuel : Nat) (ctx : SimSettingsCtx)
    (done rest : List (List Setting)) :
    List Setting → List Setting → List (List Char) →
    Option (List Setting × List (List Char))
  | curDone, [], stk => some (curDone, stk)
  | curDone, st :: more, stk =>
    match reducedSettings (settingsView (done ++ (curDone ++ st :: more) :: rest)) with
    | none => none
    | some rs =>
      match parseString fuel ⟨rs, ctx.gdict⟩ stk st.value with
      | none => none
      | some (v2, stk2) =>
        parseInstLoop fuel ctx done rest (curDone ++ [{ st with value := v2 }]) more stk2

/-- The outer loop of `parseSettings` over the instances. -/
def parseSetsLoop (fuel : Nat) (ctx : SimSettingsCtx) :
    List (List Setting) → List (List Setting) → List (List Char) →
    Option (List (List Setting) × List (List Char))
  | done, [], stk => some (done, stk)
  | done, inst :: rest, stk =>
    match parseInstLoop fuel ctx done rest [] inst stk with
    | none => none
    | some (inst2, stk2) => parseSetsLoop fuel ctx (done ++ [inst2]) rest stk2

/-- `Simulation.generateSettings` as a whole: assign the raw expansion, then
run `parseSettings`, whose `for settings_set in self._settings` loop
re-enters the `_settings` property. The freshly assigned raw list is falsy
in Python when empty, so a zero-instance expansion makes that re-entry run
`generateSettings` again — an unbounded mutual recursion (Python ends it
with `RecursionError`), modelled by the fuel running out; a non-empty
expansion is returned by the property and parsed in place. `none` = the
call never returns. -/
def generateSettingsFull : Nat → SimSettingsCtx → List (List Char) →
    Option (List (List Setting) × List (List Char))
  | 0, _, _ => none
  | fuel + 1, ctx, stk =>
    if (generateSettings ctx.dp ctx.decls ctx.user).isEmpty then
      generateSettingsFull fuel ctx stk
    else
      parseSetsLoop fuel ctx [] (generateSettings ctx.dp ctx.decls ctx.user) stk

/-- The `_settings` property: `if not(self._raw_settings):
self.generateSettings()`. The stored value is `none` before any generation;
Python truthiness makes both `None` and the empty list take the
regeneration branch, and only a non-empty stored list is returned as is. -/
def settingsProp (fuel : Nat) (ctx : SimSettingsCtx)
    (stored : Option (List (List Setting))) (stk : List (List Char)) :
    Option (List (List Setting) × List (List Char)) :=
  match stored with
  | none => generateSettingsFull fuel ctx stk
  | some l =>
    if l.isEmpty then generateSettingsFull fuel ctx stk
    else some (l, stk)

/-- `Simulation.reduced_settings` as an access on the simulation: evaluate
the `_settings` property (possibly generating), then reduce the dict views. -/
def reducedSettingsProp (fuel : Nat) (ctx : SimSettingsCtx)
    (stored : Option (List (List Setting))) (stk : List (List Char)) :
    Option (List (List Char × Value) × List (List Char)) :=
  match settingsProp fuel ctx stored stk with
  | none => none
  | some (insts, stk2) =>
    match reducedSettings (settingsView insts) with
    | none => none
    | some rs => some (rs, stk2)

/-- `Simulation.parseString` at the simulation level: a non-`str` value
returns unchanged before anything else; for a `str` the code first builds
the lookup mappings, evaluating `self.reduced_settings` — which goes through
the lazy `_settings` property and diverges when the settings-set expansion
produces zero instances — then resolves tags. Returns the parsed value, the
stored instance list after the call (generation may have run), and the
parser stack after the call. -/
def simParseProp (fuel : Nat) (ctx : SimSettingsCtx)
    (stored : Option (List (List Setting))) (stk : List (List Char))
    (v : Value) :
    Option (Value × Option (List (List Setting)) × List (List Char)) :=
  match v with
  | .int n => some (.int n, stored, stk)
  | .str s =>
    match settingsProp fuel ctx stored stk with
    | none => none
    | some (insts, stk2) =>
      match reducedSettings (settingsView insts) with
      | none => none
      | some rs =>
        match parseString fuel ⟨rs, ctx.gdict⟩ stk2 (.str s) with
        | none => none
        | some (v2, stk3) => some (v2, some insts, stk3)

/-- The tag-resolution pass of `generateGlobalSettings`
(`parseGlobalSettings`): each global setting's value is parsed in order and
overwritten in place, every call seeing the current full global list — the
already parsed entries followed by the not yet parsed ones — and going
through the simulation-level parse, so the first string-valued global on a
zero-instance simulation diverges. The stored settings list and the parser
stack are threaded across the calls. -/
def parseGlobalsLoopProp (fuel : Nat) (ctx : SimSettingsCtx) :
    Option (List (List Setting)) → List (List Char) →
    List (List Char × Value) → List (List Char × Value) →
    Option (List (List Char × Value))
  | _, _, done, [] => some done
  | stored, stk, done, (n, v) :: todo =>
    match simParseProp fuel
        { ctx with gdict := dictOfPairs (done ++ (n, v) :: todo) }
        stored stk v with
    | none => none
    | some (v2, stored2, stk2) =>
      parseGlobalsLoopProp fuel ctx stored2 stk2 (done ++ [(n, v2)]) todo

/-- A context whose settings-set expansion is empty: one optional
declaration, no user value-sets. -/
def ctx0 : SimSettingsCtx :=
  ⟨['P'], [⟨['g'], false, [⟨['a'], .int 1, none, none⟩]⟩], [], []⟩

/-! ## Launch-option parsing (`Maker.parseScriptToLaunch`) -/

/-- Modelled from the spec: the helper `string.intOrNone` lives in the
repository's `string` module, which is not among the provided sources; per
the spec it attempts to parse a piece of the launch option as an integer and
yields nothing when the piece is not one. Modelled as an optional sign
followed by at least one decimal digit. -/
def intOrNone (l : List Char) : Option Int :=
  match l with
  | [] => none
  | c :: cs =>
    if c = '-' then
      if cs ≠ [] ∧ cs.all Char.isDigit then
        some (-(cs.foldl (fun a d => a * 10 + (d.toNat - 48)) 0 : Nat))
      else none
    else if c = '+' then
      if cs ≠ [] ∧ cs.all Char.isDigit then
        some ((cs.foldl (fun a d => a * 10 + (d.toNat - 48)) 0 : Nat) : Int)
      else none
    else if (c :: cs).all Char.isDigit then
      some (((c :: cs).foldl (fun a d => a * 10 + (d.toNat - 48)) 0 : Nat) : Int)
    else none

/-- Split a string on every colon (Python `str.split(':')`). -/
def splitCol : List Char → List (List Char)
  | [] => [[]]
  | c :: cs =>
    if c = ':' then [] :: splitCol cs
    else
      match splitCol cs with
      | [] => [[c]]
      | p :: ps => (c :: p) :: ps

/-- Join pieces with colons (Python `':'.join`). -/
def joinColon : List (List Char) → List Char
  | [] => []
  | [p] => p
  | p :: ps => p ++ ':' :: joinColon ps

/-- Python `launch_option.rsplit(':', maxsplit = 2)`: at most two splits,
taken from the right, so at most three pieces; everything left of the last
two colons stays one piece. -/
def rsplitColon2 (l : List Char) : List (List Char) :=
  let ps := splitCol l
  if ps.length ≤ 3 then ps
  else joinColon (ps.take (ps.length - 2)) :: ps.drop (ps.length - 2)

/-- The index of the last entry that is `none` — Python's
`max([k for k, n in enumerate(option_split_num) if n is None])`, whose `max`
raises a `ValueError` on an empty list, modelled by `none`. -/
def lastNoneIdx : List (Option Int) → Option Nat
  | [] => none
  | o :: rest =>
    match lastNoneIdx rest with
    | some k => some (k + 1)
    | none => if o = none then some 0 else none

/-- The script coordinates decoded from a recipe's `launch` option. -/
structure ScriptCoords where
  name : List Char
  skeleton : Int
  script : Int
deriving DecidableEq

/-- `Maker.parseScriptToLaunch`: right-split the launch option on `:` into
at most 3 pieces, try each piece as an integer, cut after the last piece
that is not one (`none` models the `ValueError` when every piece is an
integer), rejoin the pieces up to the cut as the name, and read the at most
two remaining integers as skeleton and script, right-padded with `-1`. -/
def parseScriptToLaunch (l : List Char) : Option ScriptCoords :=
  match lastNoneIdx ((rsplitColon2 l).map intOrNone) with
  | none => none
  | some m =>
    some { name := joinColon ((rsplitColon2 l).take (m + 1)),
           skeleton := (((((rsplitColon2 l).map intOrNone).drop (m + 1)).map
             fun o : Option Int => o.getD (-1)) ++ [-1, -1]).getD 0 (-1),
           script := (((((rsplitColon2 l).map intOrNone).drop (m + 1)).map
             fun o : Option Int => o.getD (-1)) ++ [-1, -1]).getD 1 (-1) }

/-! ## Concrete instances used by the example parts of the claims -/

/-- The name `a`. -/
def aN : List Char := ['a']

/-- An environment whose setting `a` holds the tag for `a` followed by `x`:
a reference cycle of length one whose substitution grows the string. -/
def envG : ParseEnv := ⟨[(aN, .str (mkTag .setting aN ++ ['x']))], []⟩

/-- The substitution chain of `y{setting:a}` under `envG`: after `k` passes
the string is `y{setting:a}` followed by `k` copies of `x`. -/
def sG (k : Nat) : List Char := 'y' :: (mkTag .setting aN ++ List.replicate k 'x')

/-- A two-cycle: `a` holds the tag for `b` and `b` the tag for `a`. -/
def env2 : ParseEnv :=
  ⟨[(['a'], .str (mkTag .setting ['b'])), (['b'], .str (mkTag .setting ['a']))], []⟩

/-- `x{setting:a}`, whose substitution chain under `env2` has period two. -/
def t0 : List Char := 'x' :: mkTag .setting ['a']

/-- The input of the idempotence counterexample: `{setting:a}` followed by
two closing braces (not a full tag). -/
def s7 : List Char := mkTag .setting ['a'] ++ [cbr, cbr]

/-- The first rewriting step of `s7` under `env7`: `{setting:b}` followed by
one closing brace. -/
def p71 : List Char := mkTag .setting ['b'] ++ [cbr]

/-- Values chosen so that `s7` rewrites to `p71`, `p71` rewrites to the full
tag `{setting:c}`, and `c` holds `s7` itself: resolving `s7` returns `s7`
(a fixed point) through the full-tag path, which leaves the recursion stack
uncleared. -/
def env7 : ParseEnv :=
  ⟨[(['a'], .str (catPre .setting ++ ['b'])),
    (['b'], .str (catPre .setting ++ ['c'])),
    (['c'], .str s7)], []⟩

/-- Settings `x = 2` for the embedded-tag example. -/
def env3 : ParseEnv := ⟨[(['x'], .int 2)], []⟩

/-- The template `n={setting:x}cm`. -/
def s3 : List Char := ['n', '='] ++ mkTag .setting ['x'] ++ ['c', 'm']

/-- Settings `p = 314` for the type-preservation example. -/
def envT : ParseEnv := ⟨[(['p'], .int 314)], []⟩

/-- The empty environment. -/
def envE : ParseEnv := ⟨[], []⟩

/-- The launch option of the spec scenario, `build:2:-1`. -/
def l5 : List Char := String.toList ("build:2:-1")

/-- A job-state oracle: every job waiting at poll 0; at later polls job 1
succeeded and every other job failed. -/
def states2 : Nat → Nat → JobState :=
  fun k j => if k = 0 then .waiting else if j = 1 then .succeed else .failed

/-- The declaration of the spec scenario: set `g`, required, defaults
`a = 1`, `b = 2`. -/
def dA : SettingsSetDecl :=
  ⟨['g'], true, [⟨['a'], .int 1, none, none⟩, ⟨['b'], .int 2, none, none⟩]⟩

/-- The user value-sets of the spec scenario: `{a: 9}` then `{b: 9}`,
both for set `g`. -/
def uA : List UserValueSet :=
  [⟨['g'], [(['a'], .int 9)]⟩, ⟨['g'], [(['b'], .int 9)]⟩]

/-- The folder's default setting pattern used in the examples. -/
def dpA : List Char := ['P']

/-- A one-instance settings list binding `x = 2`, for the simulation-level
parse example. -/
def inst1 : List (List Setting) := [[⟨['x'], .int 2, false, ['P']⟩]]

/-! # Theorems -/

theorem loopCond_zero (maxC maxF : Int) : loopCond maxC maxF 0 0 = true := by
  simp only [loopCond, Bool.and_eq_true, Bool.or_eq_true, decide_eq_true_eq]
  omega

theorem runLoop_no_failure_stop : ∀ (fuel : Nat) (maxC : Int)
    (extract : Nat → List Nat) (waitOk : Nat → Bool) (st : MakerState),
    st.corruptions = 0 → (∀ k, extract k ≠ []) →
    runLoop fuel maxC (-1) extract waitOk (fun _ => true) st = none := by
  intro fuel
  induction fuel with
  | zero => intro maxC extract waitOk st hc hex; rfl
  | succ n ih =>
    intro maxC extract waitOk st hc hex
    have hcond : loopCond maxC (-1) st.corruptions st.failures = true := by
      simp only [loopCond, hc, Bool.and_eq_true, Bool.or_eq_true,
        decide_eq_true_eq]
      omega
    simp only [runLoop, hcond, if_true, hex st.rounds, if_neg (hex st.rounds)]
    exact ih maxC extract waitOk _ (by simp [hc]) hex

/-- C1: the retry loop of `Maker.run` uses the inclusive comparisons
`corruptions <= max_corrupted` and `failures <= max_failures` (see
`loopCond`); consequently with `max_failures = 0` a run whose first round
fails performs exactly one round — the final state has one failures
increment, round count 1, and the first round's unknown list — and with
`max_failures = -1` (and no corruption recorded) no sequence of failing
rounds ever makes the loop stop: it runs out of any fuel. -/
theorem claim_C1_threshold_arithmetic :
    (∀ (fuel : Nat) (maxC : Int) (extract : Nat → List Nat)
        (waitOk dlOk : Nat → Bool),
      waitOk 0 = false → extract 0 ≠ [] →
      makerRun (fuel + 2) maxC 0 extract waitOk dlOk =
        some ⟨if dlOk 0 then 0 else 1, 1, extract 0, 1⟩) ∧
    (∀ (fuel : Nat) (maxC : Int) (extract : Nat → List Nat)
        (waitOk : Nat → Bool),
      (∀ k, extract k ≠ []) →
      makerRun fuel maxC (-1) extract waitOk (fun _ => true) = none) := by
  constructor
  · intro fuel maxC extract waitOk dlOk hw he
    have hstop : loopCond maxC 0 (0 + (if dlOk 0 then 0 else 1)) (0 + 1) = false := by
      simp [loopCond]
    simp only [makerRun, runLoop, loopCond_zero, if_true, he, if_neg he, hw,
      Bool.false_eq_true, if_false, hstop]
    simp
  · intro fuel maxC extract waitOk hex
    exact runLoop_no_failure_stop fuel maxC extract waitOk _ rfl hex

/-- Witness for C1: with `max_failures = 0` and a failing first round the
run stops after exactly one round; with `max_failures = -1` the loop never
stops however long it is given. -/
theorem claim_C1_witness :
    makerRun 2 5 0 (fun _ => [0]) (fun _ => false) (fun _ => true) =
      some ⟨0, 1, [0], 1⟩ ∧
    makerRun 7 5 (-1) (fun _ => [0]) (fun _ => false) (fun _ => true) = none := by
  constructor
  · exact claim_C1_threshold_arithmetic.1 0 5 (fun _ => [0]) (fun _ => false)
      (fun _ => true) rfl (by simp)
  · exact claim_C1_threshold_arithmetic.2 7 5 (fun _ => [0]) (fun _ => false)
      (by intro k; simp)

theorem runLoop_exit_shape : ∀ (fuel : Nat) (maxC maxF : Int)
    (extract : Nat → List Nat) (waitOk dlOk : Nat → Bool)
    (st st2 : MakerState),
    (loopCond maxC maxF st.corruptions st.failures = true ∨
      (1 ≤ st.rounds ∧ st.unknown ≠ [] ∧ st.unknown = extract (st.rounds - 1))) →
    runLoop fuel maxC maxF extract waitOk dlOk st = some st2 →
    (st2.unknown = [] ∧ extract st2.rounds = [] ∧
      loopCond maxC maxF st2.corruptions st2.failures = true) ∨
    (st2.unknown ≠ [] ∧ 1 ≤ st2.rounds ∧ st2.unknown = extract (st2.rounds - 1) ∧
      loopCond maxC maxF st2.corruptions st2.failures = false) := by
  intro fuel
  induction fuel with
  | zero => intro _ _ _ _ _ _ _ _ h; exact absurd h (by simp [runLoop])
  | succ n ih =>
    intro maxC maxF extract waitOk dlOk st st2 hinv h
    by_cases hc : loopCond maxC maxF st.corruptions st.failures = true
    · by_cases hext : extract st.rounds = []
      · simp only [runLoop, hc, if_true, hext, if_true] at h
        obtain rfl : ({ st with unknown := ([] : List Nat) } : MakerState) = st2 :=
          by simpa using h
        exact Or.inl ⟨rfl, by simpa using hext, hc⟩
      · simp only [runLoop, hc, if_true, hext, if_false, if_neg hext] at h
        refine ih maxC maxF extract waitOk dlOk _ st2 (Or.inr ?_) h
        refine ⟨by simp, by simpa using hext, by simpa using hext⟩
    · simp only [runLoop, if_neg hc] at h
      obtain rfl : st = st2 := by simpa using h
      rcases hinv with hinv | ⟨h1, h2, h3⟩
      · exact absurd hinv hc
      · exact Or.inr ⟨h2, h1, h3, by simpa using hc⟩

/-- C6: whenever `Maker.run` returns a state, the returned
`unknown_simulations` list is the one from the last completed Extract step,
and it is empty exactly when the loop stopped because Extract returned
nothing (the loop condition still held); it is non-empty exactly when the
loop stopped because a counter exceeded its threshold (the loop condition
turned false). Exhaustion is signalled by the returned list, not by an
exception. -/
theorem claim_C6_run_return :
    ∀ (fuel : Nat) (maxC maxF : Int) (extract : Nat → List Nat)
      (waitOk dlOk : Nat → Bool) (st2 : MakerState),
    makerRun fuel maxC maxF extract waitOk dlOk = some st2 →
    (st2.unknown = [] ∧ extract st2.rounds = [] ∧
      loopCond maxC maxF st2.corruptions st2.failures = true) ∨
    (st2.unknown ≠ [] ∧ 1 ≤ st2.rounds ∧ st2.unknown = extract (st2.rounds - 1) ∧
      loopCond maxC maxF st2.corruptions st2.failures = false) := by
  intro fuel maxC maxF extract waitOk dlOk st2 h
  exact runLoop_exit_shape fuel maxC maxF extract waitOk dlOk _ st2
    (Or.inl (loopCond_zero maxC maxF)) h

/-- Witness for C6: a run whose second Extract finds nothing returns the
empty list with the loop condition still true. -/
theorem claim_C6_witness :
    (MakerState.unknown ⟨0, 0, [], 1⟩ = [] ∧
      (fun k => if k = 0 then [1] else []) (MakerState.rounds ⟨0, 0, [], 1⟩) = [] ∧
      loopCond (-1) 0 (MakerState.corruptions ⟨0, 0, [], 1⟩)
        (MakerState.failures ⟨0, 0, [], 1⟩) = true) ∨
    (MakerState.unknown ⟨0, 0, [], 1⟩ ≠ [] ∧ 1 ≤ MakerState.rounds ⟨0, 0, [], 1⟩ ∧
      MakerState.unknown ⟨0, 0, [], 1⟩ =
        (fun k => if k = 0 then [1] else []) (MakerState.rounds ⟨0, 0, [], 1⟩ - 1) ∧
      loopCond (-1) 0 (MakerState.corruptions ⟨0, 0, [], 1⟩)
        (MakerState.failures ⟨0, 0, [], 1⟩) = false) :=
  claim_C6_run_return 3 (-1) 0 (fun k => if k = 0 then [1] else [])
    (fun _ => true) (fun _ => true) ⟨0, 0, [], 1⟩ (by decide)

/-- C7 (amended): tag resolution is idempotent once stabilized provided the
resolver's recursion stack is empty when the second call starts: if a call
made with an empty stack returns the input string itself and leaves the
stack empty, running `parseString` again on that string returns it again.
(Without the emptiness of the left-over stack this fails: a call that
returns through the full-tag path keeps its intermediate strings on the
instance-level stack, and the next call can then detect a spurious cycle —
see the counterexample.) -/
theorem claim_C7_idempotent_clean_stack :
    ∀ (fuel : Nat) (env : ParseEnv) (s : List Char) (stk : List (List Char)),
    parseString fuel env [] (.str s) = some (.str s, stk) → stk = [] →
    parseString fuel env stk (.str s) = some (.str s, stk) := by
  intro fuel env s stk h hstk
  subst hstk
  exact h

/-- Witness for C7: the tag-free string `x` resolves to itself with a clean
stack, and resolving it again returns it unchanged. -/
theorem claim_C7_witness :
    parseString 5 envE [] (.str ['x']) = some (.str ['x'], []) :=
  claim_C7_idempotent_clean_stack 5 envE ['x'] [] (by decide) rfl

/-- Counterexample to C7 as stated: under `env7` the first call on `s7`
returns `s7` itself — `parseString` has reached a fixed point — but it
returns through the full-tag path and leaves `[s7, p71]` on the recursion
stack; the second call on the very same string and mappings then finds its
first rewriting step `p71` on the stale stack, clears it, and returns
`p71 ≠ s7`. -/
theorem claim_C7_counterexample :
    parseString 5 env7 [] (.str s7) = some (.str s7, [s7, p71]) ∧
    parseString 5 env7 [s7, p71] (.str s7) = some (.str p71, []) ∧
    p71 ≠ s7 := by
  refine ⟨by decide, by decide, by decide⟩

theorem lastNoneIdx_eq_none_iff (l : List (Option Int)) :
    lastNoneIdx l = none ↔ ∀ o ∈ l, o.isSome = true := by
  induction l with
  | nil => simp [lastNoneIdx]
  | cons o rest ih =>
    rcases h : lastNoneIdx rest with _ | k
    · rcases o with _ | a
      · constructor
        · intro hc
          rw [lastNoneIdx, h] at hc
          simp at hc
        · intro hall
          have := hall none (by simp)
          simp at this
      · constructor
        · intro _ x hx
          rcases List.mem_cons.mp hx with rfl | hx2
          · simp
          · exact ih.mp h x hx2
        · intro _
          rw [lastNoneIdx, h]
          simp
    · constructor
      · intro hc
        rw [lastNoneIdx, h] at hc
        simp at hc
      · intro hall
        have h2 : lastNoneIdx rest = none :=
          ih.mpr fun x hx => hall x (by simp [hx])
        rw [h2] at h
        cases h

theorem lastNoneIdx_isSome_after :
    ∀ (l : List (Option Int)) (m : Nat), lastNoneIdx l = some m →
      ∀ o ∈ l.drop (m + 1), o.isSome = true := by
  intro l
  induction l with
  | nil => intro m h; cases h
  | cons o rest ih =>
    intro m h
    rw [lastNoneIdx] at h
    rcases hr : lastNoneIdx rest with _ | k
    · rw [hr] at h
      by_cases ho : o = none
      · rw [if_pos ho] at h
        obtain rfl : m = 0 := by simpa using h.symm
        intro x hx
        exact (lastNoneIdx_eq_none_iff rest).mp hr x (by simpa using hx)
      · rw [if_neg ho] at h
        cases h
    · rw [hr] at h
      obtain rfl : m = k + 1 := by simpa using h.symm
      intro x hx
      exact ih k hr x (by simpa using hx)

theorem lastNoneIdx_at_none :
    ∀ (l : List (Option Int)) (m : Nat), lastNoneIdx l = some m →
      m < l.length ∧ l.getD m (some 0) = none := by
  intro l
  induction l with
  | nil => intro m h; cases h
  | cons o rest ih =>
    intro m h
    rw [lastNoneIdx] at h
    rcases hr : lastNoneIdx rest with _ | k
    · rw [hr] at h
      by_cases ho : o = none
      · rw [if_pos ho] at h
        obtain rfl : m = 0 := by simpa using h.symm
        subst ho
        simp
      · rw [if_neg ho] at h
        cases h
    · rw [hr] at h
      obtain rfl : m = k + 1 := by simpa using h.symm
      obtain ⟨h1, h2⟩ := ih k hr
      refine ⟨by simpa using Nat.succ_lt_succ h1, by simpa using h2⟩

/-- C10: `Maker.parseScriptToLaunch` returns coordinates exactly when at
least one of the right-split pieces of the launch option does not parse as
an integer; when every piece is an integer, the `max` over an empty index
list raises a `ValueError` (modelled by `none`) instead of returning. -/
theorem claim_C10_all_integer_pieces :
    ∀ (l : List Char),
      parseScriptToLaunch l = none ↔
        ((rsplitColon2 l).map intOrNone).all Option.isSome = true := by
  intro l
  unfold parseScriptToLaunch
  rcases h : lastNoneIdx ((rsplitColon2 l).map intOrNone) with _ | m
  · simp only [List.all_eq_true]
    exact iff_of_true (by simp) ((lastNoneIdx_eq_none_iff _).mp h)
  · constructor
    · intro hc
      exact absurd hc (by simp)
    · intro hall
      have h2 : lastNoneIdx ((rsplitColon2 l).map intOrNone) = none :=
        (lastNoneIdx_eq_none_iff _).mpr (by simpa [List.all_eq_true] using hall)
      rw [h2] at h
      cases h

/-- Witness for C10: `1:2:3` and `7` split into all-integer pieces, and
parsing raises (returns nothing). -/
theorem claim_C10_witness :
    parseScriptToLaunch (String.toList ("1:2:3")) = none ∧
    parseScriptToLaunch (String.toList ("7")) = none :=
  ⟨(claim_C10_all_integer_pieces _).mpr (by decide),
   (claim_C10_all_integer_pieces _).mpr (by decide)⟩

theorem rsplitColon2_length_le (l : List Char) : (rsplitColon2 l).length ≤ 3 := by
  unfold rsplitColon2
  by_cases h : (splitCol l).length ≤ 3
  · simpa [h] using h
  · simp only [h, if_false, List.length_cons, List.length_drop]
    omega

theorem getD_map_intOrNone (ps : List (List Char)) (i : Nat) (d : Option Int)
    (hi : i < ps.length) :
    (ps.map intOrNone).getD i d = intOrNone (ps.getD i []) := by
  have h1 : ps[i]? = some ps[i] := List.getElem?_eq_getElem hi
  simp [List.getD_eq_getElem?_getD, List.getElem?_map, h1]

theorem lastNoneIdx_isSome_getD :
    ∀ (l : List (Option Int)) (m : Nat), lastNoneIdx l = some m →
      ∀ j, m < j → j < l.length → (l.getD j none).isSome = true := by
  intro l
  induction l with
  | nil => intro m h; cases h
  | cons o rest ih =>
    intro m h j hj1 hj2
    rw [lastNoneIdx] at h
    rcases hr : lastNoneIdx rest with _ | k
    · rw [hr] at h
      by_cases ho : o = none
      · rw [if_pos ho] at h
        obtain rfl : m = 0 := by simpa using h.symm
        obtain ⟨j2, rfl⟩ : ∃ j2, j = j2 + 1 := ⟨j - 1, by omega⟩
        rw [List.getD_cons_succ]
        have hj3 : j2 < rest.length := by simpa using hj2
        have h4 : rest[j2]? = some rest[j2] := List.getElem?_eq_getElem hj3
        rw [List.getD_eq_getElem?_getD, h4]
        exact (lastNoneIdx_eq_none_iff rest).mp hr _ (List.getElem_mem hj3)
      · rw [if_neg ho] at h
        cases h
    · rw [hr] at h
      obtain rfl : m = k + 1 := by simpa using h.symm
      obtain ⟨j2, rfl⟩ : ∃ j2, j = j2 + 1 := ⟨j - 1, by omega⟩
      rw [List.getD_cons_succ]
      exact ih k hr j2 (by omega) (by simpa using hj2)

/-- C5: on any launch option on which it returns, `Maker.parseScriptToLaunch`
has split the option from the right into at most 3 pieces and found the last
piece `m` that does not parse as an integer (every later piece parses); the
name is the pieces up to and including `m` rejoined with colons — so the
name may itself contain colons — and the remaining 0, 1 or 2 trailing
integer pieces are the skeleton and the script, right-padded with `-1`. -/
theorem claim_C5_launch_decoding :
    ∀ (l : List Char) (c : ScriptCoords) (m : Nat),
    parseScriptToLaunch l = some c →
    lastNoneIdx ((rsplitColon2 l).map intOrNone) = some m →
    intOrNone ((rsplitColon2 l).getD m []) = none ∧
    (∀ j, m < j → j < (rsplitColon2 l).length →
      (intOrNone ((rsplitColon2 l).getD j [])).isSome = true) ∧
    c.name = joinColon ((rsplitColon2 l).take (m + 1)) ∧
    (match ((rsplitColon2 l).map intOrNone).drop (m + 1) with
     | [] => c.skeleton = -1 ∧ c.script = -1
     | [some a] => c.skeleton = a ∧ c.script = -1
     | [some a, some b] => c.skeleton = a ∧ c.script = b
     | _ => False) := by
  intro l c m h hm
  unfold parseScriptToLaunch at h
  rw [hm] at h
  obtain rfl := (Option.some.inj h).symm
  obtain ⟨hmlt, hmnone⟩ := lastNoneIdx_at_none _ m hm
  have hplen : m < (rsplitColon2 l).length := by simpa using hmlt
  refine ⟨?_, ?_, rfl, ?_⟩
  · rw [← getD_map_intOrNone _ _ (some 0) hplen]
    exact hmnone
  · intro j hj1 hj2
    rw [← getD_map_intOrNone _ _ none hj2]
    exact lastNoneIdx_isSome_getD _ m hm j hj1 (by simpa using hj2)
  · have hall := lastNoneIdx_isSome_after _ m hm
    have hlen2 : (((rsplitColon2 l).map intOrNone).drop (m + 1)).length ≤ 2 := by
      have := rsplitColon2_length_le l
      simp only [List.length_drop, List.length_map]
      omega
    rcases hrest : ((rsplitColon2 l).map intOrNone).drop (m + 1)
      with _ | ⟨o1, _ | ⟨o2, rest2⟩⟩
    · simp [hrest]
    · have h1 : o1.isSome = true := hall o1 (by rw [hrest]; simp)
      obtain ⟨a, rfl⟩ := Option.isSome_iff_exists.mp h1
      simp [hrest]
    · have h1 : o1.isSome = true := hall o1 (by rw [hrest]; simp)
      have h2 : o2.isSome = true := hall o2 (by rw [hrest]; simp)
      obtain ⟨a, rfl⟩ := Option.isSome_iff_exists.mp h1
      obtain ⟨b, rfl⟩ := Option.isSome_iff_exists.mp h2
      rcases rest2 with _ | ⟨o3, rest3⟩
      · simp [hrest]
      · rw [hrest] at hlen2
        simp at hlen2

/-- Witness for C5: `build:2:-1` decodes to name `build`, skeleton `2`,
script `-1`; the piece at the cut is not an integer, the pieces after it
are, and the name is the rejoined prefix. -/
theorem claim_C5_witness :
    intOrNone ((rsplitColon2 l5).getD 0 []) = none ∧
    (intOrNone ((rsplitColon2 l5).getD 1 [])).isSome = true ∧
    ScriptCoords.name ⟨String.toList ("build"), 2, -1⟩ =
      joinColon ((rsplitColon2 l5).take 1) ∧
    parseScriptToLaunch l5 = some ⟨String.toList ("build"), 2, -1⟩ := by
  have h := claim_C5_launch_decoding l5 ⟨String.toList ("build"), 2, -1⟩ 0
    (by decide) (by decide)
  exact ⟨h.1, h.2.1 1 (by decide) (by decide), h.2.2.1, by decide⟩

theorem dropLit_length {p l r : List Char} (h : dropLit p l = some r) :
    r.length + p.length = l.length := by
  induction p generalizing l with
  | nil => cases l <;> simp_all [dropLit]
  | cons c ps ih =>
    cases l with
    | nil => simp [dropLit] at h
    | cons d ds =>
      by_cases hd : d = c
      · simp only [dropLit, if_pos hd] at h
        have := ih h
        simp only [List.length_cons]
        omega
      · simp [dropLit, hd] at h

theorem matchNameEnd_rest_length {cat cat2 : Cat} {r nm rest : List Char}
    (h : matchNameEnd cat r = some (cat2, nm, rest)) :
    rest.length < r.length := by
  unfold matchNameEnd at h
  split at h
  · next c0 rest3 heq =>
    split at h
    · exact absurd h (by simp)
    · have hsplit := List.takeWhile_append_dropWhile
        (p := fun c : Char => decide (c ≠ cbr)) (l := r)
      have hle : (List.dropWhile (fun c : Char => decide (c ≠ cbr)) r).length ≤
          r.length := by
        have := congrArg List.length hsplit
        simp only [List.length_append] at this
        omega
      rw [heq] at hle
      simp only [Option.some.injEq, Prod.mk.injEq] at h
      obtain ⟨-, -, hr⟩ := h
      subst hr
      simp only [List.length_cons] at hle
      omega
  · exact absurd h (by simp)

theorem matchTagAt_rest_length {l : List Char} {cat : Cat}
    {nm rest : List Char} (h : matchTagAt l = some (cat, nm, rest)) :
    rest.length < l.length := by
  unfold matchTagAt at h
  split at h
  · next r heq =>
    have h1 := matchNameEnd_rest_length h
    have h2 := dropLit_length heq
    omega
  · split at h
    · next r heq =>
      have h1 := matchNameEnd_rest_length h
      have h2 := dropLit_length heq
      omega
    · exact absurd h (by simp)

theorem substOnceN_nil (n : Nat) (env : ParseEnv) : substOnceN n env [] = [] := by
  cases n <;> rfl

theorem substOnceN_congr : ∀ (n : Nat) (env : ParseEnv) (l : List Char) (m : Nat),
    l.length ≤ n → l.length ≤ m → substOnceN n env l = substOnceN m env l := by
  intro n
  induction n with
  | zero =>
    intro env l m h1 _
    obtain rfl : l = [] := List.length_eq_zero.mp (by omega)
    rw [substOnceN_nil, substOnceN_nil]
  | succ n ih =>
    intro env l m h1 h2
    cases l with
    | nil => rw [substOnceN_nil, substOnceN_nil]
    | cons c cs =>
      obtain ⟨m2, rfl⟩ : ∃ m2, m = m2 + 1 :=
        ⟨m - 1, by simp at h2; omega⟩
      simp only [substOnceN]
      rcases ht : matchTagAt (c :: cs) with _ | ⟨cat, nm, rest⟩
      · dsimp only
        simp only [List.length_cons] at h1 h2
        rw [ih env cs m2 (by omega) (by omega)]
      · dsimp only
        have hlt := matchTagAt_rest_length ht
        simp only [List.length_cons] at h1 h2 hlt
        rw [ih env rest m2 (by omega) (by omega)]

theorem substOnce_cons_some {env : ParseEnv} {c : Char} {cs : List Char}
    {cat : Cat} {nm rest : List Char}
    (h : matchTagAt (c :: cs) = some (cat, nm, rest)) :
    substOnce env (c :: cs) =
      (match lookupCat env cat nm with
       | some v => v.toText
       | none => mkTag cat nm) ++ substOnce env rest := by
  have hlt := matchTagAt_rest_length h
  simp only [substOnce, List.length_cons, substOnceN, h]
  rw [substOnceN_congr cs.length env rest rest.length
    (by simp only [List.length_cons] at hlt; omega) le_rfl]

theorem substOnce_cons_none {env : ParseEnv} {c : Char} {cs : List Char}
    (h : matchTagAt (c :: cs) = none) :
    substOnce env (c :: cs) = c :: substOnce env cs := by
  simp only [substOnce, List.length_cons, substOnceN, h]

theorem matchTagAt_none_of_head {c : Char} (l : List Char) (hc : c ≠ obr) :
    matchTagAt (c :: l) = none := by
  unfold matchTagAt
  have h1 : dropLit (catPre .globalsetting) (c :: l) = none := by
    simp [catPre, dropLit, hc]
  have h2 : dropLit (catPre .setting) (c :: l) = none := by
    simp [catPre, dropLit, hc]
  rw [h1, h2]

theorem fullTagOf_none_of_head {c : Char} (l : List Char) (hc : c ≠ obr) :
    fullTagOf (c :: l) = none := by
  unfold fullTagOf
  rw [matchTagAt_none_of_head l hc]

theorem substOnce_no_obr : ∀ (env : ParseEnv) (l : List Char), obr ∉ l →
    substOnce env l = l := by
  intro env l
  induction l with
  | nil => intro _; rfl
  | cons c cs ih =>
    intro h
    rw [substOnce_cons_none
      (matchTagAt_none_of_head cs (by simp at h; exact fun hh => h.1 hh.symm))]
    rw [ih (by simp at h; exact h.2)]

theorem substOnce_skip : ∀ (env : ParseEnv) (pre rest : List Char), obr ∉ pre →
    substOnce env (pre ++ rest) = pre ++ substOnce env rest := by
  intro env pre
  induction pre with
  | nil => intro rest _; rfl
  | cons c cs ih =>
    intro rest h
    rw [List.cons_append,
      substOnce_cons_none
        (matchTagAt_none_of_head _ (by simp at h; exact fun hh => h.1 hh.symm))]
    rw [ih rest (by simp at h; exact h.2)]
    rfl

theorem dropLit_self : ∀ (p l : List Char), dropLit p (p ++ l) = some l := by
  intro p l
  induction p with
  | nil => rfl
  | cons c ps ih => simp [dropLit, ih]

theorem takeWhile_until_cbr : ∀ (nm post : List Char), cbr ∉ nm →
    (nm ++ cbr :: post).takeWhile (fun c => c ≠ cbr) = nm ∧
    (nm ++ cbr :: post).dropWhile (fun c => c ≠ cbr) = cbr :: post := by
  intro nm
  induction nm with
  | nil => intro post _; simp
  | cons c ns ih =>
    intro post h
    have hc : c ≠ cbr := by
      simp at h
      exact fun hh => h.1 hh.symm
    obtain ⟨ih1, ih2⟩ := ih post (by simp at h; exact h.2)
    constructor
    · simpa [List.takeWhile_cons, hc] using ih1
    · simpa [List.dropWhile_cons, hc] using ih2

theorem matchTagAt_mkTag : ∀ (cat : Cat) (nm post : List Char), nm ≠ [] →
    cbr ∉ nm → matchTagAt (mkTag cat nm ++ post) = some (cat, nm, post) := by
  intro cat nm post hne hnb
  obtain ⟨ht, hd⟩ := takeWhile_until_cbr nm post hnb
  have hshape : mkTag cat nm ++ post = catPre cat ++ (nm ++ cbr :: post) := by
    simp [mkTag, List.append_assoc]
  cases cat
  · have hg : dropLit (catPre .globalsetting) (mkTag Cat.setting nm ++ post) =
        none := by
      simp [mkTag, catPre, globalChars, settingChars, dropLit]
    unfold matchTagAt
    rw [hg]
    dsimp only
    rw [hshape, dropLit_self]
    dsimp only
    unfold matchNameEnd
    rw [hd]
    dsimp only
    rw [ht, if_neg hne]
  · unfold matchTagAt
    rw [hshape, dropLit_self]
    dsimp only
    unfold matchNameEnd
    rw [hd]
    dsimp only
    rw [ht, if_neg hne]

theorem fullTagOf_mkTag (cat : Cat) (nm : List Char) (hne : nm ≠ [])
    (hnb : cbr ∉ nm) : fullTagOf (mkTag cat nm) = some (cat, nm) := by
  have h := matchTagAt_mkTag cat nm [] hne hnb
  rw [List.append_nil] at h
  unfold fullTagOf
  rw [h]

theorem substOnce_of_matchTag {env : ParseEnv} {l : List Char} {cat : Cat}
    {nm rest : List Char} (hl : l ≠ [])
    (h : matchTagAt l = some (cat, nm, rest)) :
    substOnce env l =
      (match lookupCat env cat nm with
       | some v => v.toText
       | none => mkTag cat nm) ++ substOnce env rest := by
  cases l with
  | nil => exact absurd rfl hl
  | cons c cs => exact substOnce_cons_some h

theorem substOnce_at_tag (env : ParseEnv) (cat : Cat) (nm post : List Char)
    (hne : nm ≠ []) (hnb : cbr ∉ nm) :
    substOnce env (mkTag cat nm ++ post) =
      (match lookupCat env cat nm with
       | some v => v.toText
       | none => mkTag cat nm) ++ substOnce env post := by
  refine substOnce_of_matchTag ?_ (matchTagAt_mkTag cat nm post hne hnb)
  cases cat <;> simp [mkTag, catPre]

/-- C3: `parseString` on a non-string value returns it unchanged; on a
string that is exactly one tag it returns a deep copy of the referenced raw
value with its type preserved (the concrete conjuncts show an integer value
coming back as an integer, not text), and the input string unchanged when
the name is absent; inside a larger string a substitution pass replaces a
tag by the textual coercion of the referenced value, keeps an unresolved tag
verbatim, and copies the literal spans unchanged — the last conjunct runs
the full resolution of `n={setting:x}cm` with `x = 2` to `n=2cm`. -/
theorem claim_C3_parse_values :
    (∀ (fuel : Nat) (env : ParseEnv) (stk : List (List Char)) (n : Int),
      parseString (fuel + 1) env stk (.int n) = some (.int n, stk)) ∧
    (∀ (fuel : Nat) (env : ParseEnv) (stk : List (List Char)) (cat : Cat)
        (nm : List Char) (v : Value),
      nm ≠ [] → cbr ∉ nm → lookupCat env cat nm = some v →
      parseString (fuel + 1) env stk (.str (mkTag cat nm)) = some (v, stk)) ∧
    (∀ (fuel : Nat) (env : ParseEnv) (stk : List (List Char)) (cat : Cat)
        (nm : List Char),
      nm ≠ [] → cbr ∉ nm → lookupCat env cat nm = none →
      parseString (fuel + 1) env stk (.str (mkTag cat nm)) =
        some (.str (mkTag cat nm), stk)) ∧
    (∀ (env : ParseEnv) (pre : List Char) (cat : Cat) (nm post : List Char)
        (v : Value),
      obr ∉ pre → nm ≠ [] → cbr ∉ nm → lookupCat env cat nm = some v →
      substOnce env (pre ++ mkTag cat nm ++ post) =
        pre ++ v.toText ++ substOnce env post) ∧
    (∀ (env : ParseEnv) (pre : List Char) (cat : Cat) (nm post : List Char),
      obr ∉ pre → nm ≠ [] → cbr ∉ nm → lookupCat env cat nm = none →
      substOnce env (pre ++ mkTag cat nm ++ post) =
        pre ++ mkTag cat nm ++ substOnce env post) ∧
    parseString 5 envT [] (.str (mkTag .setting ['p'])) = some (.int 314, []) ∧
    parseString 5 envT [] (.str (mkTag .setting ['q'])) =
      some (.str (mkTag .setting ['q']), []) ∧
    parseString 5 env3 [] (.str s3) = some (.str ['n', '=', '2', 'c', 'm'], []) := by
  refine ⟨?_, ?_, ?_, ?_, ?_, by decide, by decide, by decide⟩
  · intro fuel env stk n
    rfl
  · intro fuel env stk cat nm v hne hnb hlook
    simp only [parseString, fullTagOf_mkTag cat nm hne hnb, hlook]
  · intro fuel env stk cat nm hne hnb hlook
    simp only [parseString, fullTagOf_mkTag cat nm hne hnb, hlook]
  · intro env pre cat nm post v hpre hne hnb hlook
    rw [List.append_assoc, substOnce_skip env pre _ hpre,
      substOnce_at_tag env cat nm post hne hnb, hlook, List.append_assoc]
  · intro env pre cat nm post hpre hne hnb hlook
    rw [List.append_assoc, substOnce_skip env pre _ hpre,
      substOnce_at_tag env cat nm post hne hnb, hlook]
    simp [List.append_assoc]

/-- Witness for C3: concrete instances of every quantified conjunct — an
integer passes through, a found full tag returns the integer 314 as an
integer, a missing full tag returns the input, and one substitution pass on
`n={setting:x}cm` splices in the text of `x`. -/
theorem claim_C3_witness :
    parseString 5 env3 [] (.int 7) = some (.int 7, []) ∧
    parseString 5 envT [] (.str (mkTag .setting ['p'])) = some (.int 314, []) ∧
    parseString 5 envT [] (.str (mkTag .globalsetting ['p'])) =
      some (.str (mkTag .globalsetting ['p']), []) ∧
    substOnce env3 (['n', '='] ++ mkTag .setting ['x'] ++ ['c', 'm']) =
      ['n', '='] ++ (Value.int 2).toText ++ substOnce env3 ['c', 'm'] ∧
    substOnce env3 (['n', '='] ++ mkTag .setting ['y'] ++ ['c', 'm']) =
      ['n', '='] ++ mkTag .setting ['y'] ++ substOnce env3 ['c', 'm'] := by
  refine ⟨claim_C3_parse_values.1 4 env3 [] 7,
    claim_C3_parse_values.2.1 4 envT [] .setting ['p'] (.int 314)
      (by decide) (by decide) (by decide),
    claim_C3_parse_values.2.2.1 4 envT [] .globalsetting ['p']
      (by decide) (by decide) (by decide),
    claim_C3_parse_values.2.2.2.1 env3 ['n', '='] .setting ['x'] ['c', 'm']
      (.int 2) (by decide) (by decide) (by decide) (by decide),
    claim_C3_parse_values.2.2.2.2.1 env3 ['n', '='] .setting ['y'] ['c', 'm']
      (by decide) (by decide) (by decide) (by decide)⟩

theorem substOnce_sG (k : Nat) : substOnce envG (sG k) = sG (k + 1) := by
  show substOnce envG ('y' :: (mkTag .setting aN ++ List.replicate k 'x')) =
    sG (k + 1)
  rw [substOnce_cons_none (matchTagAt_none_of_head _ (by decide))]
  rw [substOnce_at_tag envG .setting aN (List.replicate k 'x')
    (by decide) (by decide)]
  rw [show lookupCat envG .setting aN = some (.str (mkTag .setting aN ++ ['x']))
    from rfl]
  have hnorep : obr ∉ List.replicate k 'x' := by
    intro hmem
    rw [List.mem_replicate] at hmem
    exact absurd hmem.2 (by decide)
  rw [substOnce_no_obr envG _ hnorep]
  simp [sG, Value.toText, List.append_assoc, List.replicate_succ]

theorem chainFrom_sG (k : Nat) : chainFrom envG (sG 0) k = sG k := by
  induction k with
  | zero => rfl
  | succ k ih => rw [chainFrom, ih, substOnce_sG]

theorem sG_length (k : Nat) : (sG k).length = 12 + k := by
  simp [sG, mkTag, catPre, settingChars, aN]
  omega

theorem parseString_envG_none :
    ∀ (fuel k : Nat),
      parseString fuel envG (chainStack envG (sG 0) k) (.str (sG k)) = none := by
  intro fuel
  induction fuel with
  | zero => intro k; rfl
  | succ n ih =>
    intro k
    simp only [parseString]
    have hft : fullTagOf (sG k) = none := fullTagOf_none_of_head _ (by decide)
    rw [hft]
    dsimp only
    have hstk : chainStack envG (sG 0) k ++ [sG k] =
        chainStack envG (sG 0) (k + 1) := by
      simp [chainStack, List.range_succ, chainFrom_sG]
    rw [substOnce_sG k, hstk]
    have hmem : sG (k + 1) ∉ chainStack envG (sG 0) (k + 1) := by
      simp only [chainStack, List.mem_map, List.mem_range, not_exists]
      intro j
      rw [chainFrom_sG]
      intro hcontra
      obtain ⟨hj, heq⟩ := hcontra
      have := congrArg List.length heq
      rw [sG_length, sG_length] at this
      omega
    rw [if_neg hmem]
    exact ih (k + 1)

/-- Counterexample to C2 as stated: the settings mapping
`a = {setting:a}x` (braces literal) has a reference cycle of length one, yet
resolving `y{setting:a}` does not return within any bounded number of
rewriting steps — each pass appends one more `x`, the new string never
repeats, and the recursion goes on (fuel 12 far exceeds the claimed bound of
the cycle length); the Python original recurses until the interpreter's
recursion limit raises `RecursionError`. -/
theorem claim_C2_counterexample :
    parseString 12 envG [] (.str (sG 0)) = none := by
  have h := parseString_envG_none 12 0
  simpa [chainStack] using h

theorem parseChainAux : ∀ (env : ParseEnv) (s : List Char) (n : Nat),
    (∀ k, k ≤ n → fullTagOf (chainFrom env s k) = none) →
    (∀ k, k ≤ n → chainFrom env s k ∉ chainStack env s k) →
    chainFrom env s (n + 1) ∈ chainStack env s (n + 1) →
    ∀ (d j : Nat), j ≤ n → n - j = d →
    parseString (n + 2 - j) env (chainStack env s j) (.str (chainFrom env s j)) =
      some (.str (chainFrom env s (n + 1)), []) := by
  intro env s n hft hmin hrep d
  induction d with
  | zero =>
    intro j hj hd
    have hjn : j = n := by omega
    rw [hjn]
    have hfuel : n + 2 - n = 1 + 1 := by omega
    rw [hfuel]
    simp only [parseString]
    rw [hft n le_rfl]
    dsimp only
    have hsub : substOnce env (chainFrom env s n) = chainFrom env s (n + 1) := rfl
    have hstk : chainStack env s n ++ [chainFrom env s n] =
        chainStack env s (n + 1) := by
      simp [chainStack, List.range_succ]
    rw [hsub, hstk, if_pos hrep]
  | succ d ih =>
    intro j hj hd
    have hfuel : n + 2 - j = (n + 2 - (j + 1)) + 1 := by omega
    rw [hfuel]
    simp only [parseString]
    rw [hft j (by omega)]
    dsimp only
    have hsub : substOnce env (chainFrom env s j) = chainFrom env s (j + 1) := rfl
    have hstk : chainStack env s j ++ [chainFrom env s j] =
        chainStack env s (j + 1) := by
      simp [chainStack, List.range_succ]
    rw [hsub, hstk, if_neg (hmin (j + 1) (by omega))]
    exact ih (j + 1) (by omega) (by omega)

/-- C2 (amended): `parseString` terminates with the cycle guard exactly on
inputs whose substitution chain repeats (before reaching a full-tag string):
if the chain from `s` is fresh for `n` steps — no full-tag form, no earlier
repeat — and the string after `n + 1` passes has already occurred, then
resolution returns within `n + 2` nested calls, yields the last computed
string (which may still contain unresolved content), and clears the tracking
stack; no exception is involved. (The universal claim over every input is
false: a growing self-reference never repeats — see the counterexample.) -/
theorem claim_C2_cycle_guard : ∀ (env : ParseEnv) (s : List Char) (n : Nat),
    (∀ k, k ≤ n → fullTagOf (chainFrom env s k) = none) →
    (∀ k, k ≤ n → chainFrom env s k ∉ chainStack env s k) →
    chainFrom env s (n + 1) ∈ chainStack env s (n + 1) →
    parseString (n + 2) env [] (.str s) =
      some (.str (chainFrom env s (n + 1)), []) := by
  intro env s n hft hmin hrep
  have h := parseChainAux env s n hft hmin hrep n 0 (by omega) (by omega)
  simpa [chainStack] using h

/-- Witness for C2: the two-cycle `a = {setting:b}`, `b = {setting:a}`
(braces literal) resolves `x{setting:a}` in cycle-length many rewriting
steps, returning the last computed string — the input itself. -/
theorem claim_C2_witness :
    parseString 3 env2 [] (.str t0) = some (.str t0, []) := by
  have h := claim_C2_cycle_guard env2 t0 1 (by decide) (by decide) (by decide)
  rw [show chainFrom env2 t0 2 = t0 by decide] at h
  exact h

theorem waitLoop_terminal : ∀ (states : Nat → Nat → JobState) (ids : List Nat)
    (fuel k : Nat) (prev : Option Partition) (p : Partition),
    waitLoop states ids fuel k prev = some p →
    (p.succeed ++ p.failed).toFinset = ids.toFinset := by
  intro states ids fuel
  induction fuel with
  | zero => intro k prev p h; cases h
  | succ n ih =>
    intro k prev p h
    rw [waitLoop] at h
    split at h
    · next hcond =>
      obtain rfl : partitionAt states ids k = p := by simpa using h
      exact hcond.2
    · exact ih (k + 1) _ p h

/-- C8: the wait phase returns only when the succeeded and failed job ids of
the final poll together cover the whole registered set — no registered job
is left outside a terminal state — and `waitForJobs` answers true exactly
when no job ended failed; and in `Maker.run`, a failed wait does not abort
the round: the loop body updates the failures counter and still performs the
download/integration step (whose outcome updates the corruptions counter)
before looping. -/
theorem claim_C8_wait_phase :
    (∀ (fuel : Nat) (states : Nat → Nat → JobState) (ids : List Nat)
        (p : Partition),
      waitLoop states ids fuel 0 none = some p →
      (p.succeed ++ p.failed).toFinset = ids.toFinset ∧
      waitForJobs fuel states ids = some p.failed.isEmpty ∧
      (p.failed.isEmpty = true ↔ p.failed = [])) ∧
    (∀ (fuel : Nat) (maxC maxF : Int) (extract : Nat → List Nat)
        (waitOk dlOk : Nat → Bool) (st : MakerState),
      loopCond maxC maxF st.corruptions st.failures = true →
      extract st.rounds ≠ [] →
      runLoop (fuel + 1) maxC maxF extract waitOk dlOk st =
        runLoop fuel maxC maxF extract waitOk dlOk
          ⟨st.corruptions + (if dlOk st.rounds then 0 else 1),
           st.failures + (if waitOk st.rounds then 0 else 1),
           extract st.rounds, st.rounds + 1⟩) := by
  constructor
  · intro fuel states ids p h
    refine ⟨waitLoop_terminal states ids fuel 0 none p h, ?_, List.isEmpty_iff⟩
    unfold waitForJobs
    rw [h]
    rfl
  · intro fuel maxC maxF extract waitOk dlOk st hcond hext
    simp only [runLoop, hcond, if_true, if_neg hext]

/-- Witness for C8: two jobs polled under `states2` — all waiting at poll 0,
then one succeeded and one failed — make the loop return the terminal
partition covering both ids with result `false`; and one concrete round with
a failed wait still performs the download update and continues. -/
theorem claim_C8_witness :
    ((Partition.succeed ⟨[], [], [1], [2]⟩ ++
        Partition.failed ⟨[], [], [1], [2]⟩).toFinset =
      ([1, 2] : List Nat).toFinset ∧
      waitForJobs 3 states2 [1, 2] =
        some (Partition.failed ⟨[], [], [1], [2]⟩).isEmpty ∧
      ((Partition.failed ⟨[], [], [1], [2]⟩).isEmpty = true ↔
        Partition.failed ⟨[], [], [1], [2]⟩ = [])) ∧
    runLoop 1 (-1) 0 (fun _ => [3]) (fun _ => false) (fun _ => true)
        ⟨0, 0, [], 0⟩ =
      runLoop 0 (-1) 0 (fun _ => [3]) (fun _ => false) (fun _ => true)
        ⟨0, 1, [3], 1⟩ := by
  constructor
  · exact claim_C8_wait_phase.1 3 states2 [1, 2] ⟨[], [], [1], [2]⟩ (by decide)
  · have h := claim_C8_wait_phase.2 0 (-1) 0 (fun _ => [3]) (fun _ => false)
      (fun _ => true) ⟨0, 0, [], 0⟩ (by decide) (by decide)
    simpa using h

theorem getD_map_general {α β : Type} (f : α → β) (l : List α) (i : Nat)
    (db : β) (da : α) (hi : i < l.length) :
    (l.map f).getD i db = f (l.getD i da) := by
  have h1 : l[i]? = some l[i] := List.getElem?_eq_getElem hi
  simp [List.getD_eq_getElem?_getD, List.getElem?_map, h1]

/-- C4: the expansion of one settings-set declaration produces one instance
per user value-set for that set name, in the user-supplied order, each a
copy of the declared defaults where exactly the names present in that
value-set are overwritten (an absent name keeps the default, an extra name
in the value-set touches nothing); with no matching value-set a required
declaration yields exactly the one default instance and an optional one
yields nothing; and the blocks of successive declarations concatenate in
declaration order. -/
theorem claim_C4_settings_expansion :
    (∀ (dp : List Char) (user : List UserValueSet) (d : SettingsSetDecl),
      matchingSets user d ≠ [] →
      (generateSettings dp [d] user).length = (matchingSets user d).length) ∧
    (∀ (dp : List Char) (user : List UserValueSet) (d : SettingsSetDecl)
        (i j : Nat),
      i < (matchingSets user d).length → j < d.settings.length →
      ((generateSettings dp [d] user).getD i []).getD j ⟨[], .int 0, false, []⟩ =
        { name := (d.settings.getD j ⟨[], .int 0, none, none⟩).name,
          value := (assocLookup (d.settings.getD j ⟨[], .int 0, none, none⟩).name
              ((matchingSets user d).getD i [])).getD
            (d.settings.getD j ⟨[], .int 0, none, none⟩).default,
          exclude := (d.settings.getD j ⟨[], .int 0, none, none⟩).exclude.getD false,
          pattern := (d.settings.getD j ⟨[], .int 0, none, none⟩).pattern.getD dp }) ∧
    (∀ (dp : List Char) (d : SettingsSetDecl) (j : Nat),
      j < d.settings.length →
      (buildDefault dp d).getD j ⟨[], .int 0, false, []⟩ =
        { name := (d.settings.getD j ⟨[], .int 0, none, none⟩).name,
          value := (d.settings.getD j ⟨[], .int 0, none, none⟩).default,
          exclude := (d.settings.getD j ⟨[], .int 0, none, none⟩).exclude.getD false,
          pattern := (d.settings.getD j ⟨[], .int 0, none, none⟩).pattern.getD dp }) ∧
    (∀ (dp : List Char) (user : List UserValueSet) (d : SettingsSetDecl),
      matchingSets user d = [] → d.required = true →
      generateSettings dp [d] user = [buildDefault dp d]) ∧
    (∀ (dp : List Char) (user : List UserValueSet) (d : SettingsSetDecl),
      matchingSets user d = [] → d.required = false →
      generateSettings dp [d] user = []) ∧
    (∀ (dp : List Char) (user : List UserValueSet) (d : SettingsSetDecl)
        (decls : List SettingsSetDecl),
      generateSettings dp (d :: decls) user =
        generateSettings dp [d] user ++ generateSettings dp decls user) ∧
    (∀ (n : List Char) (v : Value) (vs : List (List Char × Value))
        (inst : List Setting),
      (∀ st ∈ inst, st.name ≠ n) →
      applyValueSet ((n, v) :: vs) inst = applyValueSet vs inst) := by
  refine ⟨?_, ?_, ?_, ?_, ?_, ?_, ?_⟩
  · intro dp user d h
    simp [generateSettings, h]
  · intro dp user d i j hi hj
    have hne : matchingSets user d ≠ [] := by
      intro hc
      rw [hc] at hi
      simp at hi
    have hg : generateSettings dp [d] user =
        (matchingSets user d).map
          (fun vs => applyValueSet vs (buildDefault dp d)) := by
      simp [generateSettings, hne]
    rw [hg, getD_map_general _ _ i [] [] hi]
    have hlen2 : j < (buildDefault dp d).length := by
      simpa [buildDefault] using hj
    rw [show applyValueSet ((matchingSets user d).getD i []) (buildDefault dp d) =
        (buildDefault dp d).map (fun st =>
          match assocLookup st.name ((matchingSets user d).getD i []) with
          | some v => { st with value := v }
          | none => st) from rfl]
    rw [getD_map_general _ _ j (⟨[], .int 0, false, []⟩ : Setting)
      (⟨[], .int 0, false, []⟩ : Setting) hlen2]
    rw [show buildDefault dp d = d.settings.map (fun s =>
        ({ name := s.name, value := s.default, exclude := s.exclude.getD false,
           pattern := s.pattern.getD dp } : Setting)) from rfl]
    rw [getD_map_general _ _ j (⟨[], .int 0, false, []⟩ : Setting)
      (⟨[], .int 0, none, none⟩ : SettingDecl) hj]
    rcases assocLookup (d.settings.getD j ⟨[], .int 0, none, none⟩).name
      ((matchingSets user d).getD i []) with _ | w <;> rfl
  · intro dp d j hj
    rw [show buildDefault dp d = d.settings.map (fun s =>
        ({ name := s.name, value := s.default, exclude := s.exclude.getD false,
           pattern := s.pattern.getD dp } : Setting)) from rfl]
    rw [getD_map_general _ _ j (⟨[], .int 0, false, []⟩ : Setting)
      (⟨[], .int 0, none, none⟩ : SettingDecl) hj]
  · intro dp user d h hreq
    simp [generateSettings, h, hreq]
  · intro dp user d h hreq
    simp [generateSettings, h, hreq]
  · intro dp user d decls
    simp [generateSettings]
  · intro n v vs inst h
    unfold applyValueSet
    refine List.map_congr_left ?_
    intro st hst
    rw [show assocLookup st.name ((n, v) :: vs) =
        if n = st.name then some v else assocLookup st.name vs from rfl]
    rw [if_neg fun hh => h st hst hh.symm]

/-- Witness for C4: the spec scenario — declaration `g` with defaults
`a = 1`, `b = 2` and user value-sets `{a: 9}` then `{b: 9}` — produces
exactly two instances, each with exactly the named field overridden; with
no user value-sets the required declaration yields the single default
instance; and the fully evaluated expansion is
`[[a=9, b=2], [a=1, b=9]]`. -/
theorem claim_C4_witness :
    (generateSettings dpA [dA] uA).length = (matchingSets uA dA).length ∧
    ((generateSettings dpA [dA] uA).getD 0 []).getD 0 ⟨[], .int 0, false, []⟩ =
      { name := (dA.settings.getD 0 ⟨[], .int 0, none, none⟩).name,
        value := (assocLookup (dA.settings.getD 0 ⟨[], .int 0, none, none⟩).name
            ((matchingSets uA dA).getD 0 [])).getD
          (dA.settings.getD 0 ⟨[], .int 0, none, none⟩).default,
        exclude := (dA.settings.getD 0 ⟨[], .int 0, none, none⟩).exclude.getD false,
        pattern := (dA.settings.getD 0 ⟨[], .int 0, none, none⟩).pattern.getD dpA } ∧
    ((generateSettings dpA [dA] uA).getD 0 []).getD 1 ⟨[], .int 0, false, []⟩ =
      { name := (dA.settings.getD 1 ⟨[], .int 0, none, none⟩).name,
        value := (assocLookup (dA.settings.getD 1 ⟨[], .int 0, none, none⟩).name
            ((matchingSets uA dA).getD 0 [])).getD
          (dA.settings.getD 1 ⟨[], .int 0, none, none⟩).default,
        exclude := (dA.settings.getD 1 ⟨[], .int 0, none, none⟩).exclude.getD false,
        pattern := (dA.settings.getD 1 ⟨[], .int 0, none, none⟩).pattern.getD dpA } ∧
    ((generateSettings dpA [dA] uA).getD 1 []).getD 1 ⟨[], .int 0, false, []⟩ =
      { name := (dA.settings.getD 1 ⟨[], .int 0, none, none⟩).name,
        value := (assocLookup (dA.settings.getD 1 ⟨[], .int 0, none, none⟩).name
            ((matchingSets uA dA).getD 1 [])).getD
          (dA.settings.getD 1 ⟨[], .int 0, none, none⟩).default,
        exclude := (dA.settings.getD 1 ⟨[], .int 0, none, none⟩).exclude.getD false,
        pattern := (dA.settings.getD 1 ⟨[], .int 0, none, none⟩).pattern.getD dpA } ∧
    generateSettings dpA [dA] [] = [buildDefault dpA dA] ∧
    generateSettings dpA [dA] uA =
      [[⟨['a'], .int 9, false, ['P']⟩, ⟨['b'], .int 2, false, ['P']⟩],
       [⟨['a'], .int 1, false, ['P']⟩, ⟨['b'], .int 9, false, ['P']⟩]] :=
  ⟨claim_C4_settings_expansion.1 dpA uA dA (by decide),
   claim_C4_settings_expansion.2.1 dpA uA dA 0 0 (by decide) (by decide),
   claim_C4_settings_expansion.2.1 dpA uA dA 0 1 (by decide) (by decide),
   claim_C4_settings_expansion.2.1 dpA uA dA 1 1 (by decide) (by decide),
   claim_C4_settings_expansion.2.2.2.1 dpA [] dA (by decide) rfl,
   by decide⟩

theorem parseSetsLoop_length : ∀ (todo : List (List Setting)) (fuel : Nat)
    (ctx : SimSettingsCtx) (done : List (List Setting)) (stk : List (List Char))
    (res : List (List Setting)) (stk2 : List (List Char)),
    parseSetsLoop fuel ctx done todo stk = some (res, stk2) →
    res.length = done.length + todo.length := by
  intro todo
  induction todo with
  | nil =>
    intro fuel ctx done stk res stk2 h
    obtain ⟨rfl, -⟩ : done = res ∧ stk = stk2 := by
      simpa [parseSetsLoop] using h
    simp
  | cons inst rest ih =>
    intro fuel ctx done stk res stk2 h
    rw [parseSetsLoop] at h
    rcases hpi : parseInstLoop fuel ctx done rest [] inst stk with _ | ⟨inst2, stk3⟩
    · rw [hpi] at h
      cases h
    · rw [hpi] at h
      have := ih fuel ctx (done ++ [inst2]) stk3 res stk2 h
      simp only [List.length_append, List.length_cons, List.length_nil]
        at this ⊢
      omega

theorem generateSettingsFull_ne_nil : ∀ (fuel : Nat) (ctx : SimSettingsCtx)
    (stk : List (List Char)) (res : List (List Setting)) (stk2 : List (List Char)),
    generateSettingsFull fuel ctx stk = some (res, stk2) → res ≠ [] := by
  intro fuel
  induction fuel with
  | zero => intro ctx stk res stk2 h; cases h
  | succ n ih =>
    intro ctx stk res stk2 h
    rw [generateSettingsFull] at h
    by_cases he : (generateSettings ctx.dp ctx.decls ctx.user).isEmpty = true
    · rw [if_pos he] at h
      exact ih ctx stk res stk2 h
    · rw [if_neg he] at h
      have hlen := parseSetsLoop_length _ n ctx [] stk res stk2 h
      intro hc
      subst hc
      simp only [List.length_nil] at hlen
      exact he (by
        rw [List.isEmpty_iff, ← List.length_eq_zero]
        omega)

theorem generateSettingsFull_empty_diverges : ∀ (fuel : Nat)
    (ctx : SimSettingsCtx) (stk : List (List Char)),
    generateSettings ctx.dp ctx.decls ctx.user = [] →
    generateSettingsFull fuel ctx stk = none := by
  intro fuel
  induction fuel with
  | zero => intro ctx stk _; rfl
  | succ n ih =>
    intro ctx stk h
    rw [generateSettingsFull, if_pos (by rw [List.isEmpty_iff]; exact h)]
    exact ih ctx stk h

/-- C9 (amended): when the settings-set expansion produces zero instances,
`generateSettings` never returns — the `_settings` property treats the
freshly assigned empty list as not yet generated and runs `generateSettings`
again from `parseSettings`, an unbounded mutual recursion (Python:
`RecursionError`) — so every access to the property, from `None` or from a
stored empty list, diverges for any recursion budget; the `TypeError` of
`reduce` over an empty sequence is unreachable through the property, which
only ever returns a non-empty instance list. Consequently every
`parseString` call on a string value diverges on such a simulation instead
of returning a value, and so does the tag-resolution pass of
`generateGlobalSettings` at its first string-valued global; a call on a
non-string value, whose type check precedes the mapping build, still
returns the value unchanged, so the pass completes when no global setting
holds a string. -/
theorem claim_C9_empty_expansion :
    (∀ (fuel : Nat) (ctx : SimSettingsCtx) (stk : List (List Char)),
      generateSettings ctx.dp ctx.decls ctx.user = [] →
      generateSettingsFull fuel ctx stk = none) ∧
    (∀ (fuel : Nat) (ctx : SimSettingsCtx) (stk : List (List Char)),
      generateSettings ctx.dp ctx.decls ctx.user = [] →
      settingsProp fuel ctx none stk = none ∧
      settingsProp fuel ctx (some []) stk = none ∧
      reducedSettingsProp fuel ctx none stk = none) ∧
    (∀ (fuel : Nat) (ctx : SimSettingsCtx)
        (stored : Option (List (List Setting))) (stk : List (List Char))
        (insts : List (List Setting)) (stk2 : List (List Char)),
      settingsProp fuel ctx stored stk = some (insts, stk2) → insts ≠ []) ∧
    (∀ (fuel : Nat) (ctx : SimSettingsCtx) (stk : List (List Char))
        (s : List Char),
      generateSettings ctx.dp ctx.decls ctx.user = [] →
      simParseProp fuel ctx none stk (.str s) = none) ∧
    (∀ (fuel : Nat) (ctx : SimSettingsCtx)
        (stored : Option (List (List Setting))) (stk : List (List Char))
        (n : Int),
      simParseProp fuel ctx stored stk (.int n) = some (.int n, stored, stk)) ∧
    (∀ (fuel : Nat) (ctx : SimSettingsCtx) (stk : List (List Char))
        (done : List (List Char × Value)) (nm s : List Char)
        (todo : List (List Char × Value)),
      generateSettings ctx.dp ctx.decls ctx.user = [] →
      parseGlobalsLoopProp fuel ctx none stk done ((nm, .str s) :: todo) =
        none) ∧
    (∀ (fuel : Nat) (ctx : SimSettingsCtx)
        (stored : Option (List (List Setting))) (stk : List (List Char))
        (done : List (List Char × Value)) (nm : List Char) (k : Int)
        (todo : List (List Char × Value)),
      parseGlobalsLoopProp fuel ctx stored stk done ((nm, .int k) :: todo) =
        parseGlobalsLoopProp fuel ctx stored stk (done ++ [(nm, .int k)])
          todo) ∧
    (∀ (fuel : Nat) (ctx : SimSettingsCtx)
        (stored : Option (List (List Setting))) (stk : List (List Char))
        (done : List (List Char × Value)),
      parseGlobalsLoopProp fuel ctx stored stk done [] = some done) := by
  have hdiv := generateSettingsFull_empty_diverges
  refine ⟨hdiv, ?_, ?_, ?_, ?_, ?_, ?_, ?_⟩
  · intro fuel ctx stk h
    refine ⟨?_, ?_, ?_⟩
    · simpa [settingsProp] using hdiv fuel ctx stk h
    · simpa [settingsProp] using hdiv fuel ctx stk h
    · rw [reducedSettingsProp]
      rw [show settingsProp fuel ctx none stk = none by
        simpa [settingsProp] using hdiv fuel ctx stk h]
  · intro fuel ctx stored stk insts stk2 h
    unfold settingsProp at h
    rcases stored with _ | l
    · exact generateSettingsFull_ne_nil fuel ctx stk insts stk2 h
    · rcases l with _ | ⟨i0, lrest⟩
      · exact generateSettingsFull_ne_nil fuel ctx stk insts stk2
          (by simpa using h)
      · have h2 : i0 :: lrest = insts ∧ stk = stk2 := by simpa using h
        exact fun hc => by
          rw [hc] at h2
          exact absurd h2.1 (by simp)
  · intro fuel ctx stk s h
    rw [simParseProp]
    rw [show settingsProp fuel ctx none stk = none by
      simpa [settingsProp] using hdiv fuel ctx stk h]
  · intro fuel ctx stored stk n
    rfl
  · intro fuel ctx stk done nm s todo h
    rw [parseGlobalsLoopProp]
    rw [show simParseProp fuel
        { ctx with gdict := dictOfPairs (done ++ (nm, .str s) :: todo) }
        none stk (.str s) = none by
      rw [simParseProp]
      rw [show settingsProp fuel
          { ctx with gdict := dictOfPairs (done ++ (nm, .str s) :: todo) }
          none stk = none by
        simpa [settingsProp] using hdiv fuel
          { ctx with gdict := dictOfPairs (done ++ (nm, .str s) :: todo) }
          stk h]]
  · intro fuel ctx stored stk done nm k todo
    rfl
  · intro fuel ctx stored stk done
    rfl

/-- Witness for C9: on the concrete zero-instance context `ctx0`,
generation and the property accesses return nothing at a generous budget, a
string-valued parse returns nothing, an integer-valued parse returns the
integer unchanged, a stored non-empty list passes through the property
non-empty, and the globals pass over integer values completes. -/
theorem claim_C9_witness :
    generateSettingsFull 50 ctx0 [] = none ∧
    settingsProp 50 ctx0 none [] = none ∧
    reducedSettingsProp 50 ctx0 none [] = none ∧
    simParseProp 50 ctx0 none [] (.str ['z']) = none ∧
    simParseProp 5 ctx0 none [] (.int 7) = some (.int 7, none, []) ∧
    ([[⟨['a'], .int 1, false, ['P']⟩]] : List (List Setting)) ≠ [] ∧
    parseGlobalsLoopProp 5 ctx0 none [] []
        [(['u'], .int 3), (['w'], .int 4)] =
      some [(['u'], .int 3), (['w'], .int 4)] := by
  refine ⟨claim_C9_empty_expansion.1 50 ctx0 [] rfl,
    (claim_C9_empty_expansion.2.1 50 ctx0 [] rfl).1,
    (claim_C9_empty_expansion.2.1 50 ctx0 [] rfl).2.2,
    claim_C9_empty_expansion.2.2.2.1 50 ctx0 [] ['z'] rfl,
    claim_C9_empty_expansion.2.2.2.2.1 5 ctx0 none [] 7,
    claim_C9_empty_expansion.2.2.1 3 ctx0
      (some [[⟨['a'], .int 1, false, ['P']⟩]]) []
      [[⟨['a'], .int 1, false, ['P']⟩]] [] (by decide),
    ?_⟩
  rw [claim_C9_empty_expansion.2.2.2.2.2.2.1 5 ctx0 none [] []
    (['u']) 3 [(['w'], .int 4)]]
  simp only [List.nil_append]
  rw [claim_C9_empty_expansion.2.2.2.2.2.2.1 5 ctx0 none []
    [(['u'], .int 3)] (['w']) 4 []]
  exact claim_C9_empty_expansion.2.2.2.2.2.2.2 5 ctx0 none []
    [(['u'], .int 3), (['w'], .int 4)]

/-- Counterexample to C9 as stated: on the zero-instance simulation `ctx0`
a `parseString` call on the integer 7 returns the value — the type check
precedes the construction of the lookup mappings — and the global-settings
tag-resolution pass over integer-valued globals completes, so not every
`parseString` call fails; and the property access underlying
`reduced_settings` yields no `TypeError` value at all, even with recursion
budget 50 — it regenerates endlessly (the Python original ends in
`RecursionError`, not in `reduce`'s `TypeError`). -/
theorem claim_C9_counterexample :
    simParseProp 5 ctx0 none [] (.int 7) = some (.int 7, none, []) ∧
    parseGlobalsLoopProp 5 ctx0 none [] [] [(['u'], .int 3)] =
      some [(['u'], .int 3)] ∧
    settingsProp 50 ctx0 none [] = none ∧
    reducedSettingsProp 50 ctx0 none [] = none := by
  refine ⟨rfl, by decide, by decide, by decide⟩
